import Mathlib

/- Verification development for the golf7 album-art tool (src/app.py).

The Python program is shallowly embedded.  Pure helpers become Lean
functions over lists of characters and over an abstract raster type;
the effectful collaborators (tag store, artwork provider, codec,
filesystem) are represented by explicit fields of a per-file input
record, and the main loop of process_folder becomes a fold that
threads the duplicate-detection state and collects per-file outcomes.
External library calls (PIL, mutagen, requests, unicodedata) are
modelled by explicit Lean data as documented on each definition. -/

/-- Target size for album art in pixels (src/app.py, MAX_SIZE). -/
def MAX_SIZE : Nat := 400

/-- Membership in the character class of letters a-z, digits and space,
the class kept by the first re.sub of normalize_name in src/app.py. -/
def validChar (c : Char) : Bool :=
  decide ((97 ≤ c.toNat ∧ c.toNat ≤ 122) ∨ (48 ≤ c.toNat ∧ c.toNat ≤ 57) ∨ c.toNat = 32)

/-- Whitespace as matched by the second re.sub of normalize_name and by
str.strip: space, tab, newline, carriage return, vertical tab, form
feed (Python stdlib behaviour, modelled; exotic Unicode whitespace can
never reach these call sites because the first substitution has already
replaced it). -/
def pyWhite (c : Char) : Bool :=
  decide (c.toNat = 32 ∨ c.toNat = 9 ∨ c.toNat = 10 ∨ c.toNat = 13 ∨ c.toNat = 11 ∨ c.toNat = 12)

/-- Index of the last dot in the character list, if any (the extension
search of os.path.splitext, modelled for separator-free names, which is
what normalize_name and extract_metadata_from_filename pass in). -/
def lastDotIdx : List Char → Option Nat
  | [] => none
  | c :: rest =>
    match lastDotIdx rest with
    | some k => some (k + 1)
    | none => if c = '.' then some 0 else none

/-- Stem part of os.path.splitext (Python stdlib, modelled from its
documented behaviour): cut at the last dot unless every character in
front of it is also a dot, in which case the name is kept whole. -/
def splitextStem (cs : List Char) : List Char :=
  match lastDotIdx cs with
  | none => cs
  | some d => if (cs.take d).all (fun c => c == '.') then cs else cs.take d

/-- Modelled from the spec: the diacritic-removal step of normalize_name
calls unicodedata.normalize together with a combining-class filter,
which is Python stdlib behaviour external to the repository.  The spec
describes it as "decompose accented characters to their base letters
(diacritic removal)".  The table lists Latin letters with combining
accents and their base letters; every entry's key is a code point of at
least 0xC0. -/
def decompTable : List (Char × Char) :=
  [('á', 'a'), ('à', 'a'), ('â', 'a'), ('ä', 'a'), ('ã', 'a'), ('å', 'a'), ('ā', 'a'),
   ('Á', 'A'), ('À', 'A'), ('Â', 'A'), ('Ä', 'A'), ('Ã', 'A'), ('Å', 'A'), ('Ā', 'A'),
   ('é', 'e'), ('è', 'e'), ('ê', 'e'), ('ë', 'e'), ('ē', 'e'),
   ('É', 'E'), ('È', 'E'), ('Ê', 'E'), ('Ë', 'E'), ('Ē', 'E'),
   ('í', 'i'), ('ì', 'i'), ('î', 'i'), ('ï', 'i'), ('ī', 'i'),
   ('Í', 'I'), ('Ì', 'I'), ('Î', 'I'), ('Ï', 'I'), ('Ī', 'I'),
   ('ó', 'o'), ('ò', 'o'), ('ô', 'o'), ('ö', 'o'), ('õ', 'o'), ('ő', 'o'), ('ō', 'o'),
   ('Ó', 'O'), ('Ò', 'O'), ('Ô', 'O'), ('Ö', 'O'), ('Õ', 'O'), ('Ő', 'O'), ('Ō', 'O'),
   ('ú', 'u'), ('ù', 'u'), ('û', 'u'), ('ü', 'u'), ('ű', 'u'), ('ū', 'u'),
   ('Ú', 'U'), ('Ù', 'U'), ('Û', 'U'), ('Ü', 'U'), ('Ű', 'U'), ('Ū', 'U'),
   ('ý', 'y'), ('ÿ', 'y'), ('Ý', 'Y'),
   ('ç', 'c'), ('Ç', 'C'), ('ñ', 'n'), ('Ñ', 'N')]

/-- Per-character canonical decomposition with combining marks removed:
characters in the combining-mark block vanish, accented letters from the
table decompose to their base letter, everything else is unchanged. -/
def charDecompose (c : Char) : List Char :=
  if 0x300 ≤ c.toNat ∧ c.toNat ≤ 0x36F then []
  else
    match decompTable.find? (fun p => p.1 == c) with
    | some p => [p.2]
    | none => [c]

/-- Python str.lower, modelled for ASCII: the callers only rely on ASCII
behaviour, because any non-ASCII letter is replaced by the following
character-class substitution in normalize_name anyway. -/
def pyLower (c : Char) : Char :=
  if 65 ≤ c.toNat ∧ c.toNat ≤ 90 then Char.ofNat (c.toNat + 32) else c

/-- The first re.sub of normalize_name (src/app.py): each maximal run of
characters outside the kept class becomes a single space. -/
def subBadRuns : List Char → List Char
  | [] => []
  | [c] => if validChar c then [c] else [' ']
  | c :: d :: rest =>
    if validChar c then c :: subBadRuns (d :: rest)
    else if validChar d then ' ' :: subBadRuns (d :: rest)
    else subBadRuns (d :: rest)

/-- The second re.sub of normalize_name (src/app.py): each maximal run
of whitespace becomes a single space. -/
def collapseWs : List Char → List Char
  | [] => []
  | [c] => if pyWhite c then [' '] else [c]
  | c :: d :: rest =>
    if pyWhite c then
      if pyWhite d then collapseWs (d :: rest)
      else ' ' :: collapseWs (d :: rest)
    else c :: collapseWs (d :: rest)

/-- Python str.strip: remove trailing whitespace, then leading
whitespace. -/
def stripChars (cs : List Char) : List Char :=
  ((cs.reverse.dropWhile pyWhite).reverse).dropWhile pyWhite

/-- The character-level pipeline of normalize_name (src/app.py lines
19-26): drop the extension, strip diacritics, lowercase, replace runs
outside the kept class by single spaces, collapse whitespace, trim. -/
def normalizeChars (cs : List Char) : List Char :=
  stripChars (collapseWs (subBadRuns ((((splitextStem cs).map charDecompose).flatten).map pyLower)))

/-- normalize_name from src/app.py. -/
def normalize_name (s : String) : String :=
  String.mk (normalizeChars s.data)

/-- A decoded raster image: dimensions, channel count and pixel grid.
Constructions below always yield black outside the dimensions. -/
@[ext]
structure Raster where
  width : Nat
  height : Nat
  channels : Nat
  pixel : Nat → Nat → Nat × Nat × Nat

/-- PIL convert to RGB, modelled: pixel values are stored as RGB
triples already, so only the channel count is normalized. -/
def convertRGB (r : Raster) : Raster := { r with channels := 3 }

/-- Modelled from the spec: the size computation of PIL Image.thumbnail
is library code; spec section 4.3 describes it as the scale
min(target/width, target/height) clamped to at most one, preserving
aspect ratio, never below one pixel.  The rational rounding is modelled
with floor division. -/
def thumbDims (w h : Nat) : Nat × Nat :=
  if w ≤ MAX_SIZE ∧ h ≤ MAX_SIZE then (w, h)
  else if w ≤ h then (max 1 (MAX_SIZE * w / h), MAX_SIZE)
  else (MAX_SIZE, max 1 (MAX_SIZE * h / w))

/-- PIL resize, modelled: the identity at unchanged dimensions (PIL
thumbnail returns early in that case), otherwise a dimension change
with nearest-neighbour sampling standing in for the library resampling
filter; no claim depends on resampled pixel values. -/
def resample (r : Raster) (sw sh : Nat) : Raster :=
  if sw = r.width ∧ sh = r.height then r
  else
    { width := sw, height := sh, channels := r.channels,
      pixel := fun i j => r.pixel (i * r.width / sw) (j * r.height / sh) }

/-- resize_to_400 of src/app.py (lines 52-63) at the raster level:
convert to RGB, shrink to fit within the target square, paste centred
on a black target-sized canvas. -/
def resizeRaster (r : Raster) : Raster :=
  let r2 := convertRGB r
  let sw := (thumbDims r2.width r2.height).1
  let sh := (thumbDims r2.width r2.height).2
  let img := resample r2 sw sh
  { width := MAX_SIZE, height := MAX_SIZE, channels := 3,
    pixel := fun i j =>
      if (MAX_SIZE - sw) / 2 ≤ i ∧ i < (MAX_SIZE - sw) / 2 + sw ∧
         (MAX_SIZE - sh) / 2 ≤ j ∧ j < (MAX_SIZE - sh) / 2 + sh then
        img.pixel (i - (MAX_SIZE - sw) / 2) (j - (MAX_SIZE - sh) / 2)
      else (0, 0, 0) }

/-- Encoded image bytes as the core sees them: either bytes the codec
decodes to a raster, or bytes the codec rejects.  The spec's ImageCodec
collaborator contract (section 6) is decode to a raster or fail, with
encode as its inverse; JPEG re-encoding is external to the core. -/
inductive ArtBytes where
  | junk : ArtBytes
  | encoded : Raster → ArtBytes

/-- The codec's decode direction. -/
def decodeArt : ArtBytes → Option Raster
  | ArtBytes.junk => none
  | ArtBytes.encoded r => some r

/-- get_image_size from src/app.py: the decoded width and height, or a
pair of nones when decoding raises. -/
def get_image_size (b : ArtBytes) : Option Nat × Option Nat :=
  match decodeArt b with
  | some r => (some r.width, some r.height)
  | none => (none, none)

/-- resize_to_400 from src/app.py at the byte level: decode (raising on
failure, modelled as none), normalize, re-encode. -/
def resize_to_400 (b : ArtBytes) : Option ArtBytes :=
  (decodeArt b).map (fun r => ArtBytes.encoded (resizeRaster r))

/-- os.path.basename for the forward-slash separator (Python stdlib,
modelled): the part after the last separator. -/
def basenameChars (cs : List Char) : List Char :=
  cs.foldl (fun acc c => if c = '/' then [] else acc ++ [c]) []

/-- Split around the first occurrence of the literal " - " separator
(Python str.split with one maximal split, modelled). -/
def splitDashFirst : List Char → Option (List Char × List Char)
  | [] => none
  | c :: rest =>
    if (c :: rest).take 3 = [' ', '-', ' '] then some ([], (c :: rest).drop 3)
    else (splitDashFirst rest).map (fun p => (c :: p.1, p.2))

/-- extract_metadata_from_filename from src/app.py: drop directory and
extension, split once on " - ", strip whitespace from both halves;
names without the separator yield no metadata. -/
def extract_metadata_from_filename (filename : String) : Option String × Option String :=
  match splitDashFirst (splitextStem (basenameChars filename.data)) with
  | some p => (some (String.mk (stripChars p.1)), some (String.mk (stripChars p.2)))
  | none => (none, none)

/-- Python truthiness of an optional string: present and nonempty. -/
def truthy : Option String → Bool
  | none => false
  | some s => !(s == "")

/-- Per-file action outcomes, named after the statistics counters of
process_folder (the kept case has no counter in the source, only a log
line). -/
inductive Outcome where
  | invalidName
  | corruptedArt
  | kept
  | replacedSmall
  | downloadFailed
  | resized
  | addedMissing
  deriving DecidableEq

/-- One candidate file as the run sees it, with the observable
behaviour of the external collaborators recorded as data: name and
path from the driver; duration as get_audio_duration returns it (none
when its guarded MP3 parse fails); tagsReadable false when the
unguarded MP3/ID3 parse inside get_embedded_art raises; currentArt the
embedded cover bytes; providerArt the result of download_album_art
(none for network failure or an empty result); writeOk false when the
tag-store save inside embed_album_art fails. -/
structure FileEntry where
  name : String
  path : String
  duration : Option Int
  tagsReadable : Bool
  currentArt : Option ArtBytes
  providerArt : Option ArtBytes
  writeOk : Bool

/-- Observable per-file effects: whether download_album_art was
invoked, and the bytes persisted by a successful tag-store write. -/
structure Effects where
  providerCalled : Bool
  written : Option ArtBytes

/-- embed_album_art from src/app.py (lines 75-89): the whole body is
wrapped in a try block whose handler only prints, so nothing ever
propagates; bytes are persisted only when both the resize of the input
bytes and the save succeed.  Returns the persisted bytes. -/
def embed_album_art (writeOk : Bool) (b : ArtBytes) : Option ArtBytes :=
  match resize_to_400 b with
  | some out => if writeOk then some out else none
  | none => none

/-- The album-art part of process_folder's per-file body (src/app.py
lines 161-218): filename check, embedded-art read (whose parse
exception propagates, modelled as Except.error), the geometry ladder
and the provider fallback. -/
def processFile (e : FileEntry) : Except String (Outcome × Effects) :=
  let m := extract_metadata_from_filename e.name
  if !(truthy m.1 && truthy m.2) then Except.ok (Outcome.invalidName, ⟨false, none⟩)
  else if !e.tagsReadable then Except.error "get_embedded_art raised"
  else
    match e.currentArt with
    | some art =>
      match get_image_size art with
      | (some w, some h) =>
        if w = MAX_SIZE ∧ h = MAX_SIZE then Except.ok (Outcome.kept, ⟨false, none⟩)
        else if w < MAX_SIZE ∨ h < MAX_SIZE then
          match e.providerArt with
          | some na => Except.ok (Outcome.replacedSmall, ⟨true, embed_album_art e.writeOk na⟩)
          | none => Except.ok (Outcome.downloadFailed, ⟨true, none⟩)
        else Except.ok (Outcome.resized, ⟨false, embed_album_art e.writeOk art⟩)
      | _ => Except.ok (Outcome.corruptedArt, ⟨false, none⟩)
    | none =>
      match e.providerArt with
      | some na => Except.ok (Outcome.addedMissing, ⟨true, embed_album_art e.writeOk na⟩)
      | none => Except.ok (Outcome.downloadFailed, ⟨true, none⟩)

/-- The duplicate-detection step of process_folder (src/app.py lines
147-159): with a readable duration, if the key is present scan the
records already seen under it, report a pair with the first one whose
duration is within two seconds and append the new record; if the key
is absent create its bucket; with an unreadable duration do nothing. -/
def duplicateStep (seen : String → List (String × Int)) (norm path : String) :
    Option Int → ((String → List (String × Int)) × Option (String × String))
  | none => (seen, none)
  | some d =>
    if seen norm = [] then
      (fun k => if k = norm then [(path, d)] else seen k, none)
    else
      (fun k => if k = norm then seen norm ++ [(path, d)] else seen k,
       ((seen norm).find? (fun p => decide ((p.2 - d).natAbs ≤ 2))).map (fun p => (p.1, path)))

/-- The duplicate clusterer run over (filename, path, duration)
observations in order, exactly as process_folder performs it. -/
def clusterRunFrom (seen : String → List (String × Int)) (pairs : List (String × String)) :
    List (String × String × Option Int) →
      ((String → List (String × Int)) × List (String × String))
  | [] => (seen, pairs)
  | (nm, p, d) :: rest =>
    let step := duplicateStep seen (normalize_name nm) p d
    clusterRunFrom step.1 (pairs ++ step.2.toList) rest

/-- The duplicate clusterer starting from the empty index. -/
def clusterRun (obs : List (String × String × Option Int)) :
    ((String → List (String × Int)) × List (String × String)) :=
  clusterRunFrom (fun _ => []) [] obs

/-- Accumulated state of one run of process_folder: the seen index of
the duplicate clusterer, the reported pairs, and one outcome per file
processed so far. -/
structure RunAcc where
  seen : String → List (String × Int)
  duplicates : List (String × String)
  outcomes : List (String × Outcome)

/-- process_folder from src/app.py as a fold over the candidate files:
duplicate detection first, then the album-art branch; an exception
escaping the album-art branch aborts the whole fold, because the
source loop has no handler around it. -/
def processFrom (acc : RunAcc) : List FileEntry → Except String RunAcc
  | [] => Except.ok acc
  | e :: rest =>
    let step := duplicateStep acc.seen (normalize_name e.name) e.path e.duration
    match processFile e with
    | Except.error msg => Except.error msg
    | Except.ok oc =>
      processFrom ⟨step.1, acc.duplicates ++ step.2.toList, acc.outcomes ++ [(e.path, oc.1)]⟩ rest

/-- A whole run from the initial empty state. -/
def process_folder (es : List FileEntry) : Except String RunAcc :=
  processFrom ⟨fun _ => [], [], []⟩ es

/-- The duplicate pairs reported by a completed run. -/
def runDuplicates (es : List FileEntry) : Option (List (String × String)) :=
  match process_folder es with
  | Except.ok acc => some acc.duplicates
  | Except.error _ => none

/-- The spec's GeometryVerdict enumeration (section 3). -/
inductive GeometryVerdict where
  | EXACT
  | TOO_SMALL
  | TOO_LARGE
  | UNREADABLE
  | ABSENT
  deriving DecidableEq

/-- The geometry ladder of process_folder (src/app.py lines 170-206)
read off as a classifier over the optional embedded bytes. -/
def classifyArt (art : Option ArtBytes) : GeometryVerdict :=
  match art with
  | none => GeometryVerdict.ABSENT
  | some b =>
    match get_image_size b with
    | (some w, some h) =>
      if w = MAX_SIZE ∧ h = MAX_SIZE then GeometryVerdict.EXACT
      else if w < MAX_SIZE ∨ h < MAX_SIZE then GeometryVerdict.TOO_SMALL
      else GeometryVerdict.TOO_LARGE
    | _ => GeometryVerdict.UNREADABLE

/-- The ImageGeometryPolicy rule in the spec's own wording (section
4.2), for comparison with the classifier read off the source. -/
def geometryVerdictSpec (w h : Nat) : GeometryVerdict :=
  if w = 400 ∧ h = 400 then GeometryVerdict.EXACT
  else if w < 400 ∨ h < 400 then GeometryVerdict.TOO_SMALL
  else GeometryVerdict.TOO_LARGE

/-- The shape of normalize_name's output asserted by the spec: only
letters, digits and single internal spaces. -/
def normalizedShape (cs : List Char) : Prop :=
  (∀ c ∈ cs, validChar c = true) ∧
  (∀ x, cs.head? = some x → x ≠ ' ') ∧
  (∀ x, cs.getLast? = some x → x ≠ ' ') ∧
  List.Chain' (fun a b => ¬(a = ' ' ∧ b = ' ')) cs

/-- An 800 by 800 black test raster. -/
def raster800 : Raster := ⟨800, 800, 3, fun _ _ => (0, 0, 0)⟩

/-- A 399 by 400 black test raster. -/
def raster399 : Raster := ⟨399, 400, 3, fun _ _ => (0, 0, 0)⟩

/-- An 800 by 600 black test raster. -/
def raster86 : Raster := ⟨800, 600, 3, fun _ _ => (0, 0, 0)⟩

/-- A file with oversized embedded art and a working tag store. -/
def entryTooLarge : FileEntry :=
  ⟨"Artist - Song.mp3", "/m/a.mp3", some 200, true,
    some (ArtBytes.encoded raster800), some ArtBytes.junk, true⟩

/-- A file with oversized embedded art whose tag-store save fails. -/
def entryWriteFail : FileEntry :=
  ⟨"Artist - Song.mp3", "/m/b.mp3", some 200, true,
    some (ArtBytes.encoded raster800), none, false⟩

/-- A file with undersized embedded art and a failing provider. -/
def entryTooSmallNoProvider : FileEntry :=
  ⟨"Artist - Song.mp3", "/m/c.mp3", some 200, true,
    some (ArtBytes.encoded raster399), none, true⟩

/-- A file whose embedded-tag container cannot be parsed, so the read
inside get_embedded_art raises. -/
def entryBadTags : FileEntry :=
  ⟨"Artist - Song.mp3", "/m/d.mp3", some 200, false, none, some ArtBytes.junk, true⟩

/-- An unremarkable processable file. -/
def entryGood : FileEntry :=
  ⟨"Artist - Tune.mp3", "/m/e.mp3", some 150, true, none, none, true⟩

/-- A duplicate-detection test file with the given path and duration. -/
def dupEntry (p : String) (d : Int) : FileEntry :=
  ⟨"Song.mp3", p, some d, true, none, none, true⟩

/-- The properties claimed of the image normalizer for a valid input
raster: the output is the 400 by 400 three-channel canvas, the scaled
content never exceeds the source dimensions nor the target, an input
already within the target is taken unscaled, otherwise some dimension
reaches the target, and the scaled content sits centred at the floor
division offsets on black. -/
def c9Prop (r : Raster) : Prop :=
  (resizeRaster r).width = 400 ∧ (resizeRaster r).height = 400 ∧
  (resizeRaster r).channels = 3 ∧
  (thumbDims r.width r.height).1 ≤ r.width ∧ (thumbDims r.width r.height).2 ≤ r.height ∧
  (thumbDims r.width r.height).1 ≤ 400 ∧ (thumbDims r.width r.height).2 ≤ 400 ∧
  (r.width ≤ 400 ∧ r.height ≤ 400 → thumbDims r.width r.height = (r.width, r.height)) ∧
  (¬(r.width ≤ 400 ∧ r.height ≤ 400) →
    (thumbDims r.width r.height).1 = 400 ∨ (thumbDims r.width r.height).2 = 400) ∧
  (∀ i j, (resizeRaster r).pixel i j =
    if (400 - (thumbDims r.width r.height).1) / 2 ≤ i ∧
       i < (400 - (thumbDims r.width r.height).1) / 2 + (thumbDims r.width r.height).1 ∧
       (400 - (thumbDims r.width r.height).2) / 2 ≤ j ∧
       j < (400 - (thumbDims r.width r.height).2) / 2 + (thumbDims r.width r.height).2 then
      (resample (convertRGB r) (thumbDims r.width r.height).1
          (thumbDims r.width r.height).2).pixel
        (i - (400 - (thumbDims r.width r.height).1) / 2)
        (j - (400 - (thumbDims r.width r.height).2) / 2)
    else (0, 0, 0))

theorem thumbDims_le (w h : Nat) :
    (thumbDims w h).1 ≤ MAX_SIZE ∧ (thumbDims w h).2 ≤ MAX_SIZE := by
  unfold thumbDims MAX_SIZE
  split
  · next hc => exact ⟨hc.1, hc.2⟩
  next hno =>
  split
  · next hwh =>
    have hh : 0 < h := by omega
    constructor
    · refine max_le (by omega) ?_
      calc 400 * w / h ≤ 400 * h / h := Nat.div_le_div_right (Nat.mul_le_mul (le_refl 400) hwh)
        _ = 400 := Nat.mul_div_left 400 hh
    · exact le_refl 400
  · next hwh =>
    have hw : 0 < w := by omega
    constructor
    · exact le_refl 400
    · refine max_le (by omega) ?_
      calc 400 * h / w ≤ 400 * w / w := Nat.div_le_div_right (Nat.mul_le_mul (le_refl 400) (by omega))
        _ = 400 := Nat.mul_div_left 400 hw

theorem thumbDims_le_self (w h : Nat) (hw : 0 < w) (hh : 0 < h) :
    (thumbDims w h).1 ≤ w ∧ (thumbDims w h).2 ≤ h := by
  unfold thumbDims MAX_SIZE
  split
  · exact ⟨le_refl w, le_refl h⟩
  next hno =>
  split
  · next hwh =>
    have h400 : 400 < h := by omega
    constructor
    · refine max_le hw ?_
      calc 400 * w / h ≤ h * w / h := Nat.div_le_div_right (Nat.mul_le_mul (by omega) (le_refl w))
        _ = w := Nat.mul_div_cancel_left w (by omega)
    · omega
  · next hwh =>
    have h400 : 400 < w := by omega
    constructor
    · omega
    · refine max_le hh ?_
      calc 400 * h / w ≤ w * h / w := Nat.div_le_div_right (Nat.mul_le_mul (by omega) (le_refl h))
        _ = h := Nat.mul_div_cancel_left h (by omega)

theorem resizeRaster_pixel_outside (r : Raster) (i j : Nat)
    (hij : MAX_SIZE ≤ i ∨ MAX_SIZE ≤ j) : (resizeRaster r).pixel i j = (0, 0, 0) := by
  have h1 := (thumbDims_le (convertRGB r).width (convertRGB r).height).1
  have h2 := (thumbDims_le (convertRGB r).width (convertRGB r).height).2
  simp only [resizeRaster]
  split
  · next hcon =>
    exfalso
    obtain ⟨hx1, hx2, hy1, hy2⟩ := hcon
    unfold MAX_SIZE at *
    omega
  · rfl

theorem resizeRaster_fixed (r : Raster) (hw : r.width = MAX_SIZE) (hh : r.height = MAX_SIZE)
    (hc : r.channels = 3)
    (hout : ∀ i j, MAX_SIZE ≤ i ∨ MAX_SIZE ≤ j → r.pixel i j = (0, 0, 0)) :
    resizeRaster r = r := by
  obtain ⟨w, h, c, pix⟩ := r
  have hw' : w = MAX_SIZE := hw
  have hh' : h = MAX_SIZE := hh
  have hc' : c = 3 := hc
  subst hw' hh' hc'
  refine Raster.ext rfl rfl rfl ?_
  funext i j
  show (if (MAX_SIZE - MAX_SIZE) / 2 ≤ i ∧ i < (MAX_SIZE - MAX_SIZE) / 2 + MAX_SIZE ∧
           (MAX_SIZE - MAX_SIZE) / 2 ≤ j ∧ j < (MAX_SIZE - MAX_SIZE) / 2 + MAX_SIZE then
         pix (i - (MAX_SIZE - MAX_SIZE) / 2) (j - (MAX_SIZE - MAX_SIZE) / 2)
       else (0, 0, 0)) = pix i j
  simp only [Nat.sub_self, Nat.zero_div, Nat.zero_add, Nat.sub_zero, Nat.zero_le, true_and]
  by_cases hij : i < MAX_SIZE ∧ j < MAX_SIZE
  · rw [if_pos hij]
  · rw [if_neg hij]
    exact (hout i j (by omega)).symm

/-- Claim C5: the image normalizer is idempotent.  The output of
resizeRaster is a fixed point: re-normalizing an already canonical
(exactly target-sized, black outside the pasted content) image
reproduces it, which is what makes trusting EXACT verdicts without
re-normalizing sound. -/
theorem claim_c5_idempotent (r : Raster) :
    resizeRaster (resizeRaster r) = resizeRaster r :=
  resizeRaster_fixed (resizeRaster r) rfl rfl rfl (resizeRaster_pixel_outside r)

/-- Claim C8: the geometry classifier follows the ordered rule: absent
art is ABSENT, undecodable bytes are UNREADABLE, an exact 400 by 400
match is EXACT, otherwise any dimension below 400 makes TOO_SMALL, and
everything else is TOO_LARGE; in particular (400,400) is EXACT,
(399,400) is TOO_SMALL and (401,400) is TOO_LARGE. -/
theorem claim_c8_geometry :
    classifyArt none = GeometryVerdict.ABSENT ∧
    classifyArt (some ArtBytes.junk) = GeometryVerdict.UNREADABLE ∧
    (∀ w h c pix, classifyArt (some (ArtBytes.encoded ⟨w, h, c, pix⟩)) = geometryVerdictSpec w h) ∧
    classifyArt (some (ArtBytes.encoded ⟨400, 400, 3, fun _ _ => (0, 0, 0)⟩)) =
      GeometryVerdict.EXACT ∧
    classifyArt (some (ArtBytes.encoded ⟨399, 400, 3, fun _ _ => (0, 0, 0)⟩)) =
      GeometryVerdict.TOO_SMALL ∧
    classifyArt (some (ArtBytes.encoded ⟨401, 400, 3, fun _ _ => (0, 0, 0)⟩)) =
      GeometryVerdict.TOO_LARGE := by
  refine ⟨rfl, rfl, fun w h c pix => rfl, rfl, rfl, rfl⟩

/-- Claim C9: for a valid decodable raster the normalizer yields the
400 by 400 three-channel canvas, scales by the clamped fit factor
(taking an input already inside the target unchanged, never upscaling,
and pushing a dimension to the target otherwise), and pastes the
scaled content centred at the floor-division offsets on black. -/
theorem claim_c9_normalizer (r : Raster) (hw : 0 < r.width) (hh : 0 < r.height) : c9Prop r := by
  obtain ⟨hle1, hle2⟩ := thumbDims_le r.width r.height
  obtain ⟨hs1, hs2⟩ := thumbDims_le_self r.width r.height hw hh
  refine ⟨rfl, rfl, rfl, hs1, hs2, hle1, hle2, ?_, ?_, fun i j => rfl⟩
  · intro hfit
    unfold thumbDims MAX_SIZE
    rw [if_pos hfit]
  · intro hno
    unfold thumbDims MAX_SIZE
    rw [if_neg hno]
    by_cases hwh : r.width ≤ r.height
    · rw [if_pos hwh]
      exact Or.inr rfl
    · rw [if_neg hwh]
      exact Or.inl rfl

theorem claim_c9_witness : 0 < raster86.width ∧ 0 < raster86.height ∧ c9Prop raster86 :=
  ⟨by decide, by decide, claim_c9_normalizer raster86 (by decide) (by decide)⟩

theorem embed_album_art_false (b : ArtBytes) : embed_album_art false b = none := by
  cases b <;> simp [embed_album_art, resize_to_400, decodeArt]

/-- Counterexample to claim C4 as stated: on a file with oversized
embedded art whose tag-store save fails, the engine still reports the
success outcome resized; the failure is swallowed inside
embed_album_art (nothing is written), not propagated and not surfaced
as a per-file failure. -/
theorem claim_c4_counterexample :
    entryWriteFail.writeOk = false ∧
    processFile entryWriteFail = Except.ok (Outcome.resized, ⟨false, none⟩) :=
  ⟨rfl, rfl⟩

/-- Claim C4 as amended: a tag-store write failure is caught and logged
inside embed_album_art and never propagated; the per-file outcome is
exactly the one of the successful-write case (so the file is still
counted under ADDED, REPLACED or RESIZED), only no bytes are
persisted. -/
theorem claim_c4_amended (e : FileEntry) :
    processFile { e with writeOk := false } =
      (processFile e).map (fun oc => (oc.1, ⟨oc.2.providerCalled, none⟩)) := by
  obtain ⟨nm, p, dur, tr, ca, pa, wo⟩ := e
  cases hm : truthy (extract_metadata_from_filename nm).1 &&
      truthy (extract_metadata_from_filename nm).2
  · simp [processFile, hm, Except.map]
  · cases tr
    · simp [processFile, hm, Except.map]
    · cases ca with
      | none =>
        cases pa with
        | none => simp [processFile, hm, Except.map]
        | some na => simp [processFile, hm, Except.map, embed_album_art_false]
      | some art =>
        cases art with
        | junk => simp [processFile, hm, Except.map, get_image_size, decodeArt]
        | encoded r =>
          by_cases hx : r.width = MAX_SIZE ∧ r.height = MAX_SIZE
          · simp [processFile, hm, Except.map, get_image_size, decodeArt, hx]
          · by_cases hs : r.width < MAX_SIZE ∨ r.height < MAX_SIZE
            · cases pa with
              | none => simp [processFile, hm, Except.map, get_image_size, decodeArt, hx, hs]
              | some na =>
                simp [processFile, hm, Except.map, get_image_size, decodeArt, hx, hs,
                  embed_album_art_false]
            · simp [processFile, hm, Except.map, get_image_size, decodeArt, hx, hs,
                embed_album_art_false]

/-- Claim C6: on a file whose embedded art decodes as TOO_LARGE, the
outcome is resized, the provider is never called, and the bytes handed
to the tag store are the normalization of the current embedded bytes. -/
theorem claim_c6_too_large (e : FileEntry) (b : ArtBytes) (r : Raster)
    (h1 : truthy (extract_metadata_from_filename e.name).1 = true)
    (h2 : truthy (extract_metadata_from_filename e.name).2 = true)
    (h3 : e.tagsReadable = true)
    (h4 : e.currentArt = some b)
    (h5 : decodeArt b = some r)
    (h6 : ¬(r.width = MAX_SIZE ∧ r.height = MAX_SIZE))
    (h7 : ¬(r.width < MAX_SIZE ∨ r.height < MAX_SIZE))
    (h8 : e.writeOk = true) :
    processFile e =
      Except.ok (Outcome.resized, ⟨false, some (ArtBytes.encoded (resizeRaster r))⟩) := by
  cases b with
  | junk => simp [decodeArt] at h5
  | encoded r0 =>
    have hr : r0 = r := by simpa [decodeArt] using h5
    subst hr
    simp [processFile, h1, h2, h3, h4, h8, get_image_size, decodeArt, h6, h7,
      embed_album_art, resize_to_400]

theorem claim_c6_witness :
    truthy (extract_metadata_from_filename entryTooLarge.name).1 = true ∧
    truthy (extract_metadata_from_filename entryTooLarge.name).2 = true ∧
    entryTooLarge.tagsReadable = true ∧
    entryTooLarge.currentArt = some (ArtBytes.encoded raster800) ∧
    decodeArt (ArtBytes.encoded raster800) = some raster800 ∧
    ¬(raster800.width = MAX_SIZE ∧ raster800.height = MAX_SIZE) ∧
    ¬(raster800.width < MAX_SIZE ∨ raster800.height < MAX_SIZE) ∧
    entryTooLarge.writeOk = true ∧
    processFile entryTooLarge =
      Except.ok (Outcome.resized, ⟨false, some (ArtBytes.encoded (resizeRaster raster800))⟩) :=
  ⟨rfl, rfl, rfl, rfl, rfl, by decide, by decide, rfl,
    claim_c6_too_large entryTooLarge (ArtBytes.encoded raster800) raster800 rfl rfl rfl rfl rfl
      (by decide) (by decide) rfl⟩

/-- Claim C7: on a file whose embedded art decodes as TOO_SMALL and
whose provider fetch fails or comes back empty, the outcome is
downloadFailed and no tag-store write happens, leaving the embedded
art untouched. -/
theorem claim_c7_small_download_failed (e : FileEntry) (b : ArtBytes) (r : Raster)
    (h1 : truthy (extract_metadata_from_filename e.name).1 = true)
    (h2 : truthy (extract_metadata_from_filename e.name).2 = true)
    (h3 : e.tagsReadable = true)
    (h4 : e.currentArt = some b)
    (h5 : decodeArt b = some r)
    (h6 : ¬(r.width = MAX_SIZE ∧ r.height = MAX_SIZE))
    (h7 : r.width < MAX_SIZE ∨ r.height < MAX_SIZE)
    (h8 : e.providerArt = none) :
    processFile e = Except.ok (Outcome.downloadFailed, ⟨true, none⟩) := by
  cases b with
  | junk => simp [decodeArt] at h5
  | encoded r0 =>
    have hr : r0 = r := by simpa [decodeArt] using h5
    subst hr
    simp [processFile, h1, h2, h3, h4, h8, get_image_size, decodeArt, h6, h7]

theorem claim_c7_witness :
    truthy (extract_metadata_from_filename entryTooSmallNoProvider.name).1 = true ∧
    truthy (extract_metadata_from_filename entryTooSmallNoProvider.name).2 = true ∧
    entryTooSmallNoProvider.tagsReadable = true ∧
    entryTooSmallNoProvider.currentArt = some (ArtBytes.encoded raster399) ∧
    decodeArt (ArtBytes.encoded raster399) = some raster399 ∧
    ¬(raster399.width = MAX_SIZE ∧ raster399.height = MAX_SIZE) ∧
    (raster399.width < MAX_SIZE ∨ raster399.height < MAX_SIZE) ∧
    entryTooSmallNoProvider.providerArt = none ∧
    processFile entryTooSmallNoProvider = Except.ok (Outcome.downloadFailed, ⟨true, none⟩) :=
  ⟨rfl, rfl, rfl, rfl, rfl, by decide, by decide, rfl,
    claim_c7_small_download_failed entryTooSmallNoProvider (ArtBytes.encoded raster399)
      raster399 rfl rfl rfl rfl rfl (by decide) (by decide) rfl⟩

/-- Claim C3, evaluated at the failing input: a file whose embedded-tag
container cannot be parsed makes the unguarded read inside
get_embedded_art raise, aborting the whole run, so the following file
is never processed and receives no outcome; the same following file
processed on its own does receive an outcome. -/
theorem claim_c3_run_aborts :
    process_folder [entryBadTags, entryGood] = Except.error "get_embedded_art raised" ∧
    (process_folder [entryGood]).map RunAcc.outcomes =
      Except.ok [(entryGood.path, Outcome.downloadFailed)] :=
  ⟨rfl, rfl⟩

/-- Counterexample to claim C1 as stated: three records sharing a key
with all pairwise duration differences at most two seconds make the
run report two duplicate pairs, not exactly one. -/
theorem claim_c1_counterexample :
    runDuplicates [dupEntry "p1" 100, dupEntry "p2" 101, dupEntry "p3" 102] =
      some [("p1", "p2"), ("p1", "p3")] ∧
    (runDuplicates [dupEntry "p1" 100, dupEntry "p2" 101, dupEntry "p3" 102]).map
        List.length ≠ some 1 := by
  refine ⟨rfl, ?_⟩
  rw [show runDuplicates [dupEntry "p1" 100, dupEntry "p2" 101, dupEntry "p3" 102] =
        some [("p1", "p2"), ("p1", "p3")] from rfl]
  decide

/-- Claim C1 as amended: for three records sharing a normalized key,
all with readable durations and pairwise differences at most two
seconds, the clusterer reports exactly two pairs, each later record
matching the first record only (first-match-only per incoming record),
not three pairs and not one. -/
theorem claim_c1_amended (n p1 p2 p3 : String) (d1 d2 d3 : Int)
    (h12 : (d1 - d2).natAbs ≤ 2) (h13 : (d1 - d3).natAbs ≤ 2) (h23 : (d2 - d3).natAbs ≤ 2) :
    (clusterRun [(n, p1, some d1), (n, p2, some d2), (n, p3, some d3)]).2 =
      [(p1, p2), (p1, p3)] := by
  simp [clusterRun, clusterRunFrom, duplicateStep, h12, h13, Option.toList, List.find?]

theorem claim_c1_witness :
    ((100 : Int) - 101).natAbs ≤ 2 ∧ ((100 : Int) - 102).natAbs ≤ 2 ∧
    ((101 : Int) - 102).natAbs ≤ 2 ∧
    (clusterRun [("Song.mp3", "q1", some 100), ("Song.mp3", "q2", some 101),
        ("Song.mp3", "q3", some 102)]).2 = [("q1", "q2"), ("q1", "q3")] :=
  ⟨by decide, by decide, by decide,
    claim_c1_amended "Song.mp3" "q1" "q2" "q3" 100 101 102 (by decide) (by decide) (by decide)⟩

/-- Counterexample to claim C2 as stated: observing a record with an
unreadable duration leaves the seen index empty at its key, so the
record is not indexed for future comparisons (and no pair is
reported). -/
theorem claim_c2_counterexample :
    (clusterRun [("Song.mp3", "pX", none)]).1 (normalize_name "Song.mp3") = [] ∧
    (clusterRun [("Song.mp3", "pX", none)]).2 = [] :=
  ⟨rfl, rfl⟩

/-- Claim C2 as amended: a record with an unreadable duration is
skipped entirely by the duplicate clusterer: the seen index is left
unchanged (the record is never indexed, so no later record can match
it) and no pair is emitted; the step is total, so detection never
raises. -/
theorem claim_c2_amended (seen : String → List (String × Int)) (norm path : String) :
    duplicateStep seen norm path none = (seen, none) := rfl

theorem space_of_valid_white (c : Char) (h1 : validChar c = true) (h2 : pyWhite c = true) :
    c = ' ' := by
  have hn : c.toNat = 32 := by
    simp [validChar] at h1
    simp [pyWhite] at h2
    omega
  have h3 : c.val = (' ').val := by
    apply UInt32.ext
    simpa [Char.toNat] using hn
  exact Char.ext h3

theorem not_white_of_valid_ne_space (c : Char) (h1 : validChar c = true) (h2 : c ≠ ' ') :
    pyWhite c = false := by
  by_cases hw : pyWhite c = true
  · exact absurd (space_of_valid_white c h1 hw) h2
  · simpa using hw

theorem subBadRuns_valid (cs : List Char) : ∀ x ∈ subBadRuns cs, validChar x = true := by
  induction cs with
  | nil => simp [subBadRuns]
  | cons c rest ih =>
    cases rest with
    | nil =>
      intro x hx
      by_cases hc : validChar c = true
      · simp [subBadRuns, hc] at hx
        simpa [hx] using hc
      · simp [subBadRuns, hc] at hx
        simp [hx]
        decide
    | cons d rest2 =>
      intro x hx
      by_cases hc : validChar c = true
      · rw [subBadRuns, if_pos hc] at hx
        rcases List.mem_cons.mp hx with h | h
        · simpa [h] using hc
        · exact ih x h
      · rw [subBadRuns, if_neg hc] at hx
        by_cases hd : validChar d = true
        · rw [if_pos hd] at hx
          rcases List.mem_cons.mp hx with h | h
          · simp [h]
            decide
          · exact ih x h
        · rw [if_neg hd] at hx
          exact ih x hx

theorem subBadRuns_id (cs : List Char) (h : ∀ x ∈ cs, validChar x = true) :
    subBadRuns cs = cs := by
  induction cs with
  | nil => rfl
  | cons c rest ih =>
    cases rest with
    | nil => simp [subBadRuns, h c (by simp)]
    | cons d rest2 =>
      rw [subBadRuns, if_pos (h c (by simp))]
      rw [ih (fun x hx => h x (List.mem_cons_of_mem c hx))]

theorem collapseWs_cons_of_neg (d : Char) (rest : List Char) (hd : pyWhite d = false) :
    collapseWs (d :: rest) = d :: collapseWs rest := by
  cases rest with
  | nil => simp [collapseWs, hd]
  | cons e rest2 => rw [collapseWs, if_neg (by simp [hd])]

theorem collapseWs_mem (cs : List Char) : ∀ x ∈ collapseWs cs, x ∈ cs ∨ x = ' ' := by
  induction cs with
  | nil => simp [collapseWs]
  | cons c rest ih =>
    cases rest with
    | nil =>
      intro x hx
      by_cases hc : pyWhite c = true
      · simp [collapseWs, hc] at hx
        exact Or.inr hx
      · simp [collapseWs, hc] at hx
        exact Or.inl (by simp [hx])
    | cons d rest2 =>
      intro x hx
      by_cases hc : pyWhite c = true
      · rw [collapseWs, if_pos hc] at hx
        by_cases hd : pyWhite d = true
        · rw [if_pos hd] at hx
          rcases ih x hx with h | h
          · exact Or.inl (List.mem_cons_of_mem c h)
          · exact Or.inr h
        · rw [if_neg hd] at hx
          rcases List.mem_cons.mp hx with h | h
          · exact Or.inr h
          · rcases ih x h with h2 | h2
            · exact Or.inl (List.mem_cons_of_mem c h2)
            · exact Or.inr h2
      · rw [collapseWs_cons_of_neg c (d :: rest2) (by simpa using hc)] at hx
        rcases List.mem_cons.mp hx with h | h
        · exact Or.inl (by simp [h])
        · rcases ih x h with h2 | h2
          · exact Or.inl (List.mem_cons_of_mem c h2)
          · exact Or.inr h2

theorem collapseWs_chain (cs : List Char) :
    List.Chain' (fun a b => ¬(pyWhite a = true ∧ pyWhite b = true)) (collapseWs cs) := by
  induction cs with
  | nil => simp [collapseWs]
  | cons c rest ih =>
    cases rest with
    | nil =>
      by_cases hc : pyWhite c = true <;> simp [collapseWs, hc]
    | cons d rest2 =>
      by_cases hc : pyWhite c = true
      · by_cases hd : pyWhite d = true
        · rw [collapseWs, if_pos hc, if_pos hd]
          exact ih
        · rw [collapseWs, if_pos hc, if_neg hd]
          refine List.chain'_cons'.mpr ⟨?_, ih⟩
          intro y hy
          rw [collapseWs_cons_of_neg d rest2 (by simpa using hd)] at hy
          simp at hy
          subst hy
          simp [hd]
      · rw [collapseWs_cons_of_neg c (d :: rest2) (by simpa using hc)]
        refine List.chain'_cons'.mpr ⟨?_, ih⟩
        intro y hy
        intro hcon
        exact hc hcon.1

theorem collapseWs_id (cs : List Char) (hv : ∀ x ∈ cs, validChar x = true)
    (hch : List.Chain' (fun a b => ¬(a = ' ' ∧ b = ' ')) cs) : collapseWs cs = cs := by
  induction cs with
  | nil => rfl
  | cons c rest ih =>
    cases rest with
    | nil =>
      by_cases hc : pyWhite c = true
      · rw [space_of_valid_white c (hv c (by simp)) hc]
        rfl
      · simp [collapseWs, hc]
    | cons d rest2 =>
      have hvt : ∀ x ∈ d :: rest2, validChar x = true :=
        fun x hx => hv x (List.mem_cons_of_mem c hx)
      have hcht : List.Chain' (fun a b => ¬(a = ' ' ∧ b = ' ')) (d :: rest2) :=
        (List.chain'_cons.mp hch).2
      by_cases hc : pyWhite c = true
      · have hcs : c = ' ' := space_of_valid_white c (hv c (by simp)) hc
        have hds : d ≠ ' ' := by
          intro hde
          exact (List.chain'_cons.mp hch).1 ⟨hcs, hde⟩
        have hd : pyWhite d = false :=
          not_white_of_valid_ne_space d (hvt d (by simp)) hds
        rw [collapseWs, if_pos hc, if_neg (by simp [hd])]
        rw [ih hvt hcht, hcs]
      · rw [collapseWs_cons_of_neg c (d :: rest2) (by simpa using hc)]
        rw [ih hvt hcht]

theorem dropWhile_head_false (p : Char → Bool) (l : List Char) (x : Char)
    (h : (l.dropWhile p).head? = some x) : p x = false := by
  induction l with
  | nil => simp at h
  | cons c t ih =>
    rw [List.dropWhile_cons] at h
    by_cases hc : p c = true
    · rw [if_pos hc] at h
      exact ih h
    · rw [if_neg hc] at h
      simp at h
      subst h
      simpa using hc

theorem getLast?_dropWhile_some (p : Char → Bool) (l : List Char) (x : Char)
    (h : (l.dropWhile p).getLast? = some x) : l.getLast? = some x := by
  induction l with
  | nil => simp at h
  | cons c t ih =>
    rw [List.dropWhile_cons] at h
    by_cases hc : p c = true
    · rw [if_pos hc] at h
      have ht := ih h
      cases t with
      | nil => simp at ht
      | cons b l2 => rw [List.getLast?_cons_cons]; exact ht
    · rw [if_neg hc] at h
      exact h

theorem chain'_dropWhile (R : Char → Char → Prop) (p : Char → Bool) (l : List Char)
    (h : List.Chain' R l) : List.Chain' R (l.dropWhile p) := by
  induction l with
  | nil => exact h
  | cons c t ih =>
    rw [List.dropWhile_cons]
    by_cases hc : p c = true
    · rw [if_pos hc]
      exact ih h.tail
    · rw [if_neg hc]
      exact h

theorem dropWhile_eq_self_of_head (p : Char → Bool) (l : List Char)
    (h : ∀ x, l.head? = some x → p x = false) : l.dropWhile p = l := by
  cases l with
  | nil => rfl
  | cons c t =>
    rw [List.dropWhile_cons, if_neg (by simp [h c rfl])]

theorem whiteChain_reverse (l : List Char)
    (h : List.Chain' (fun a b => ¬(pyWhite a = true ∧ pyWhite b = true)) l) :
    List.Chain' (fun a b => ¬(pyWhite a = true ∧ pyWhite b = true)) l.reverse := by
  rw [List.chain'_reverse]
  exact h.imp (fun a b hab hc => hab ⟨hc.2, hc.1⟩)

theorem stripChars_mem (cs : List Char) : ∀ x ∈ stripChars cs, x ∈ cs := by
  intro x hx
  unfold stripChars at hx
  have h1 := (List.dropWhile_sublist pyWhite).subset hx
  rw [List.mem_reverse] at h1
  have h2 := (List.dropWhile_sublist pyWhite).subset h1
  rw [List.mem_reverse] at h2
  exact h2

theorem stripChars_head (cs : List Char) (x : Char)
    (h : (stripChars cs).head? = some x) : pyWhite x = false :=
  dropWhile_head_false pyWhite _ x h

theorem stripChars_last (cs : List Char) (x : Char)
    (h : (stripChars cs).getLast? = some x) : pyWhite x = false := by
  unfold stripChars at h
  have h1 := getLast?_dropWhile_some pyWhite _ x h
  rw [List.getLast?_reverse] at h1
  exact dropWhile_head_false pyWhite _ x h1

theorem stripChars_chain (cs : List Char)
    (h : List.Chain' (fun a b => ¬(pyWhite a = true ∧ pyWhite b = true)) cs) :
    List.Chain' (fun a b => ¬(pyWhite a = true ∧ pyWhite b = true)) (stripChars cs) := by
  unfold stripChars
  exact chain'_dropWhile _ _ _ (whiteChain_reverse _ (chain'_dropWhile _ _ _ (whiteChain_reverse _ h)))

theorem stripChars_id (cs : List Char)
    (hhd : ∀ x, cs.head? = some x → pyWhite x = false)
    (hlast : ∀ x, cs.getLast? = some x → pyWhite x = false) : stripChars cs = cs := by
  unfold stripChars
  rw [dropWhile_eq_self_of_head pyWhite cs.reverse
    (fun x hx => hlast x (by rwa [List.head?_reverse] at hx))]
  rw [List.reverse_reverse]
  exact dropWhile_eq_self_of_head pyWhite cs hhd

theorem lastDotIdx_none (cs : List Char) (hv : ∀ x ∈ cs, validChar x = true) :
    lastDotIdx cs = none := by
  induction cs with
  | nil => rfl
  | cons c t ih =>
    rw [lastDotIdx, ih (fun x hx => hv x (List.mem_cons_of_mem c hx))]
    have hc : c ≠ '.' := by
      intro he
      have := hv c (by simp)
      rw [he] at this
      exact absurd this (by decide)
    simp [hc]

theorem splitextStem_id (cs : List Char) (hv : ∀ x ∈ cs, validChar x = true) :
    splitextStem cs = cs := by
  unfold splitextStem
  rw [lastDotIdx_none cs hv]

theorem decompTable_ge : ∀ q ∈ decompTable, 192 ≤ q.1.toNat := by decide

theorem charDecompose_id (c : Char) (hv : validChar c = true) : charDecompose c = [c] := by
  have hle : c.toNat ≤ 122 := by
    simp [validChar] at hv
    omega
  unfold charDecompose
  rw [if_neg (by omega)]
  have hfind : decompTable.find? (fun p => p.1 == c) = none := by
    rw [List.find?_eq_none]
    intro q hq hbeq
    have h192 := decompTable_ge q hq
    have : q.1 = c := by simpa using hbeq
    rw [this] at h192
    omega
  rw [hfind]

theorem flatten_decompose_id (cs : List Char) (hv : ∀ x ∈ cs, validChar x = true) :
    (cs.map charDecompose).flatten = cs := by
  induction cs with
  | nil => rfl
  | cons c t ih =>
    simp only [List.map_cons, List.flatten_cons]
    rw [charDecompose_id c (hv c (by simp)), ih (fun x hx => hv x (List.mem_cons_of_mem c hx))]
    rfl

theorem pyLower_id (c : Char) (hv : validChar c = true) : pyLower c = c := by
  unfold pyLower
  rw [if_neg]
  simp [validChar] at hv
  omega

theorem map_pyLower_id (cs : List Char) (hv : ∀ x ∈ cs, validChar x = true) :
    cs.map pyLower = cs := by
  induction cs with
  | nil => rfl
  | cons c t ih =>
    simp only [List.map_cons]
    rw [pyLower_id c (hv c (by simp)), ih (fun x hx => hv x (List.mem_cons_of_mem c hx))]

theorem normalizeChars_shape (cs : List Char) : normalizedShape (normalizeChars cs) := by
  unfold normalizeChars
  have hsub := subBadRuns_valid ((((splitextStem cs).map charDecompose).flatten).map pyLower)
  have hcol : ∀ x ∈ collapseWs (subBadRuns
      ((((splitextStem cs).map charDecompose).flatten).map pyLower)), validChar x = true := by
    intro x hx
    rcases collapseWs_mem _ x hx with h | h
    · exact hsub x h
    · rw [h]
      decide
  refine ⟨?_, ?_, ?_, ?_⟩
  · intro x hx
    exact hcol x (stripChars_mem _ x hx)
  · intro x hx hxe
    have hw := stripChars_head _ x hx
    rw [hxe] at hw
    exact absurd hw (by decide)
  · intro x hx hxe
    have hw := stripChars_last _ x hx
    rw [hxe] at hw
    exact absurd hw (by decide)
  · have hch := stripChars_chain
      (collapseWs (subBadRuns ((((splitextStem cs).map charDecompose).flatten).map pyLower)))
      (collapseWs_chain (subBadRuns ((((splitextStem cs).map charDecompose).flatten).map pyLower)))
    exact hch.imp (fun a b hab hc => hab ⟨by rw [hc.1]; decide, by rw [hc.2]; decide⟩)

theorem normalizeChars_id (cs : List Char) (h : normalizedShape cs) : normalizeChars cs = cs := by
  obtain ⟨hv, hhd, hlast, hch⟩ := h
  have hwh : ∀ x, cs.head? = some x → pyWhite x = false := fun x hx =>
    not_white_of_valid_ne_space x (hv x (List.mem_of_mem_head? hx)) (hhd x hx)
  have hwl : ∀ x, cs.getLast? = some x → pyWhite x = false := fun x hx =>
    not_white_of_valid_ne_space x (hv x (List.mem_of_mem_getLast? hx)) (hlast x hx)
  unfold normalizeChars
  rw [splitextStem_id cs hv, flatten_decompose_id cs hv, map_pyLower_id cs hv,
    subBadRuns_id cs hv, collapseWs_id cs hv hch, stripChars_id cs hwh hwl]

/-- Claim C10: for every input string, normalize_name yields only
letters a-z, digits and single internal spaces, with no leading or
trailing space and no two consecutive spaces, and is consequently
idempotent. -/
theorem claim_c10_normalize (s : String) :
    normalizedShape (normalize_name s).data ∧
    normalize_name (normalize_name s) = normalize_name s := by
  have hs : normalizedShape (normalizeChars s.data) := normalizeChars_shape s.data
  refine ⟨hs, ?_⟩
  exact congrArg String.mk (normalizeChars_id (normalizeChars s.data) hs)
